/-
Verification of the shared-memory byte-channel bridge and the Assuan
protocol shim of this repository.

The definitions below are shallow embeddings of the JavaScript source
(the dirmngr bridge worker and the gpg browser worker).  The shared
ring buffer (a `Uint8Array` plus an `Int32Array` control block holding
head, tail, closed flag and a wake-up generation counter) is modelled
as a `ByteQueue`; the generation counter only drives `Atomics.wait`
wake-ups and has no effect on the sequential semantics, so it is not
part of the state.  A blocking call that would re-enter `Atomics.wait`
with an unchanged state is modelled by the distinguished results
`PushResult.wouldWait` / `PopResult.wouldWait` (the call does not
return in that state until the peer acts).
-/
import Mathlib

set_option maxRecDepth 20000

/-- JS return values of `queuePushByte`: `ok` models `true`,
`fail` models `false`, `wouldWait` models the retry loop around
`Atomics.wait` (no return in the current state). -/
inductive PushResult where
  | ok
  | fail
  | wouldWait
  deriving DecidableEq, Repr

/-- JS return values of `queuePopByte`: `byte v` models a popped byte,
`closedEnd` models `null` (empty and closed), `noData` models
`undefined` (empty, open, non-blocking), `wouldWait` models the retry
loop around `Atomics.wait`. -/
inductive PopResult where
  | byte (v : Nat)
  | closedEnd
  | noData
  | wouldWait
  deriving DecidableEq, Repr

/-- State of one shared queue: `ctrl[0] = head`, `ctrl[1] = tail`,
`ctrl[2] = closed`, and the `Uint8Array` `data` of length `size`
modelled as a function. -/
structure ByteQueue where
  size : Nat
  data : Nat → Nat
  head : Nat
  tail : Nat
  closed : Bool

/-- Well-formedness: the indices stay inside the ring (both are only
ever written as values reduced mod `size`). -/
def ByteQueue.wf (q : ByteQueue) : Prop := q.head < q.size ∧ q.tail < q.size

instance (q : ByteQueue) : Decidable q.wf := by unfold ByteQueue.wf; infer_instance

/-- Functional update of the byte array (`data[i] = v`). -/
def arrSet (f : Nat → Nat) (i v : Nat) : Nat → Nat :=
  fun j => if j = i then v else f j

/-- `queuePushByte(queue, byteValue, shouldBlock)` from the source:
one pass of the retry loop.  If a free slot exists the byte (masked
with `0xff`) is stored at `head` and `head` advances; otherwise the
closed flag, then the blocking flag, decide the result. -/
def queuePushByte (q : ByteQueue) (byteValue : Nat) (shouldBlock : Bool) :
    ByteQueue × PushResult :=
  let value := byteValue % 256
  let next := (q.head + 1) % q.size
  if next ≠ q.tail then
    ({ q with data := arrSet q.data q.head value, head := next }, PushResult.ok)
  else if q.closed then (q, PushResult.fail)
  else if !shouldBlock then (q, PushResult.fail)
  else (q, PushResult.wouldWait)

/-- `queuePopByte(queue, shouldBlock)` from the source: one pass of the
retry loop.  If data is pending the byte at `tail` is returned and
`tail` advances; otherwise the closed flag, then the blocking flag,
decide the result. -/
def queuePopByte (q : ByteQueue) (shouldBlock : Bool) :
    ByteQueue × PopResult :=
  if q.tail ≠ q.head then
    let value := q.data q.tail
    ({ q with tail := (q.tail + 1) % q.size }, PopResult.byte value)
  else if q.closed then (q, PopResult.closedEnd)
  else if !shouldBlock then (q, PopResult.noData)
  else (q, PopResult.wouldWait)

/-- `queueHasData(queue)` from the source (`head !== tail`). -/
def queueHasData (q : ByteQueue) : Bool := q.head != q.tail

/-- `queueClose(queue)` from the source (sets `ctrl[2] = 1`). -/
def queueClose (q : ByteQueue) : ByteQueue := { q with closed := true }

/-- Number of buffered bytes: `(head - tail) mod size`. -/
def ByteQueue.used (q : ByteQueue) : Nat := (q.head + q.size - q.tail) % q.size

/-- The i-th buffered byte counting from `tail`. -/
def ByteQueue.slot (q : ByteQueue) (i : Nat) : Nat := q.data ((q.tail + i) % q.size)

/-- Abstraction of the ring: the buffered bytes in pop order. -/
def ByteQueue.ringList (q : ByteQueue) : List Nat :=
  (List.range q.used).map q.slot

/-- A freshly created shared queue over a zeroed buffer of length `C`. -/
def emptyQueue (C : Nat) : ByteQueue :=
  { size := C, data := fun _ => 0, head := 0, tail := 0, closed := false }

/-- Pop `n` times (non-blocking), collecting the popped bytes and the
final queue state. -/
def drainN : Nat → ByteQueue → List Nat × ByteQueue
  | 0, q => ([], q)
  | n + 1, q =>
    match queuePopByte q false with
    | (q', PopResult.byte v) =>
      let r := drainN n q'
      (v :: r.1, r.2)
    | (q', _) => ([], q')

/- ### Modular arithmetic helpers for the ring indices -/

theorem mod_two_cases (a n : Nat) (h : a < 2 * n) :
    a % n = if a < n then a else a - n := by
  split
  · exact Nat.mod_eq_of_lt (by assumption)
  · have hn : n ≤ a := Nat.le_of_not_lt (by assumption)
    rw [Nat.mod_eq_sub_mod hn]
    exact Nat.mod_eq_of_lt (by omega)

theorem ByteQueue.used_lt (q : ByteQueue) (hwf : q.wf) : q.used < q.size := by
  obtain ⟨h1, h2⟩ := hwf
  exact Nat.mod_lt _ (by omega)

theorem ByteQueue.used_eq (q : ByteQueue) (hwf : q.wf) :
    q.used = if q.head + q.size - q.tail < q.size
      then q.head + q.size - q.tail else q.head - q.tail := by
  have h1 := hwf.1
  have h2 := hwf.2
  unfold ByteQueue.used
  rw [mod_two_cases _ _ (by omega)]
  split <;> omega

theorem ByteQueue.used_zero_iff (q : ByteQueue) (hwf : q.wf) :
    q.used = 0 ↔ q.head = q.tail := by
  have h1 := hwf.1
  have h2 := hwf.2
  rw [q.used_eq hwf]
  split <;> omega

theorem ByteQueue.full_iff (q : ByteQueue) (hwf : q.wf) :
    (q.head + 1) % q.size = q.tail ↔ q.used = q.size - 1 := by
  have h1 := hwf.1
  have h2 := hwf.2
  rw [q.used_eq hwf, mod_two_cases (q.head + 1) q.size (by omega)]
  split <;> split <;> omega

theorem ByteQueue.head_eq_tail_add_used (q : ByteQueue) (hwf : q.wf) :
    (q.tail + q.used) % q.size = q.head := by
  have h1 := hwf.1
  have h2 := hwf.2
  rw [q.used_eq hwf]
  split
  · rw [mod_two_cases _ _ (by omega)]
    split <;> omega
  · rw [mod_two_cases _ _ (by omega)]
    split <;> omega

theorem mod_add_inj (t i j n : Nat) (ht : t < n) (hi : i < n) (hj : j < n)
    (h : (t + i) % n = (t + j) % n) : i = j := by
  rw [mod_two_cases (t + i) n (by omega), mod_two_cases (t + j) n (by omega)] at h
  split at h <;> split at h <;> omega

/- ### Plain arithmetic forms of the index updates -/

theorem ring_push_used (s h t : Nat) (h1 : h < s) (h2 : t < s)
    (hlt : (h + s - t) % s < s - 1) :
    ((h + 1) % s + s - t) % s = (h + s - t) % s + 1 := by
  have e1 : (h + s - t) % s = if h + s - t < s then h + s - t else h + s - t - s :=
    mod_two_cases _ _ (by omega)
  by_cases hh : h + 1 < s
  · have e2 : (h + 1) % s = h + 1 := Nat.mod_eq_of_lt hh
    have e3 : (h + 1 + s - t) % s =
        if h + 1 + s - t < s then h + 1 + s - t else h + 1 + s - t - s :=
      mod_two_cases _ _ (by omega)
    rw [e1] at hlt
    rw [e2, e3, e1]
    split_ifs at hlt ⊢ <;> omega
  · have hh2 : h + 1 = s := by omega
    have e2 : (h + 1) % s = 0 := by rw [hh2]; exact Nat.mod_self s
    have e3 : (0 + s - t) % s = if s - t < s then s - t else s - t - s := by
      rw [Nat.zero_add]; exact mod_two_cases _ _ (by omega)
    rw [e1] at hlt
    rw [e2, e3, e1]
    split_ifs at hlt ⊢ <;> omega

theorem ring_pop_used (s h t : Nat) (h1 : h < s) (h2 : t < s)
    (hpos : 0 < (h + s - t) % s) :
    (h + s - (t + 1) % s) % s = (h + s - t) % s - 1 := by
  have e1 : (h + s - t) % s = if h + s - t < s then h + s - t else h + s - t - s :=
    mod_two_cases _ _ (by omega)
  by_cases ht : t + 1 < s
  · have e2 : (t + 1) % s = t + 1 := Nat.mod_eq_of_lt ht
    have e3 : (h + s - (t + 1)) % s =
        if h + s - (t + 1) < s then h + s - (t + 1) else h + s - (t + 1) - s :=
      mod_two_cases _ _ (by omega)
    rw [e1] at hpos
    rw [e2, e3, e1]
    split_ifs at hpos ⊢ <;> omega
  · have ht2 : t + 1 = s := by omega
    have e2 : (t + 1) % s = 0 := by rw [ht2]; exact Nat.mod_self s
    have e3 : (h + s - 0) % s = if h + s < s then h + s else h + s - s := by
      rw [Nat.sub_zero]; exact mod_two_cases _ _ (by omega)
    rw [e1] at hpos
    rw [e2, e3, e1]
    split_ifs at hpos ⊢ <;> omega

/- ### Step lemmas: push/pop against the ring abstraction -/

theorem queuePushByte_not_full (q : ByteQueue) (b : Nat) (sb : Bool)
    (hwf : q.wf) (h : q.used < q.size - 1) :
    queuePushByte q b sb =
      ({ q with data := arrSet q.data q.head (b % 256),
                head := (q.head + 1) % q.size }, PushResult.ok) := by
  unfold queuePushByte
  rw [if_pos]
  intro hc
  rw [q.full_iff hwf] at hc
  omega

theorem queuePushByte_full (q : ByteQueue) (b : Nat) (sb : Bool)
    (hwf : q.wf) (h : q.used = q.size - 1) :
    queuePushByte q b sb =
      (q, if q.closed then PushResult.fail
          else if !sb then PushResult.fail else PushResult.wouldWait) := by
  unfold queuePushByte
  rw [if_neg]
  · split
    · rfl
    · split <;> rfl
  · rw [not_not, q.full_iff hwf]
    exact h

theorem queuePushByte_wf (q : ByteQueue) (b : Nat) (sb : Bool) (hwf : q.wf) :
    (queuePushByte q b sb).1.wf := by
  by_cases h : q.used = q.size - 1
  · rw [queuePushByte_full q b sb hwf h]
    exact hwf
  · have hlt : q.used < q.size - 1 := by
      have := q.used_lt hwf
      omega
    rw [queuePushByte_not_full q b sb hwf hlt]
    exact ⟨Nat.mod_lt _ (by have := hwf.1; omega), hwf.2⟩

theorem queuePushByte_used (q : ByteQueue) (b : Nat) (sb : Bool)
    (hwf : q.wf) (h : q.used < q.size - 1) :
    (queuePushByte q b sb).1.used = q.used + 1 := by
  rw [queuePushByte_not_full q b sb hwf h]
  exact ring_push_used q.size q.head q.tail hwf.1 hwf.2 h

theorem queuePushByte_ringList (q : ByteQueue) (b : Nat) (sb : Bool)
    (hwf : q.wf) (h : q.used < q.size - 1) :
    (queuePushByte q b sb).1.ringList = q.ringList ++ [b % 256] := by
  have h2 := hwf.2
  have hused := queuePushByte_used q b sb hwf h
  rw [queuePushByte_not_full q b sb hwf h] at hused ⊢
  unfold ByteQueue.ringList
  rw [hused, List.range_succ, List.map_append]
  congr 1
  · apply List.map_congr_left
    intro i hi
    rw [List.mem_range] at hi
    show arrSet q.data q.head (b % 256) ((q.tail + i) % q.size) = q.slot i
    unfold arrSet ByteQueue.slot
    rw [if_neg]
    intro hc
    rw [← q.head_eq_tail_add_used hwf] at hc
    have := mod_add_inj q.tail i q.used q.size h2 (by omega) (q.used_lt hwf) hc
    omega
  · show [arrSet q.data q.head (b % 256) ((q.tail + q.used) % q.size)] = _
    unfold arrSet
    rw [q.head_eq_tail_add_used hwf, if_pos rfl]

theorem queuePopByte_nonempty (q : ByteQueue) (sb : Bool)
    (hwf : q.wf) (h : 0 < q.used) :
    queuePopByte q sb =
      ({ q with tail := (q.tail + 1) % q.size }, PopResult.byte (q.slot 0)) := by
  have hne : q.tail ≠ q.head := by
    intro hc
    have hz := (q.used_zero_iff hwf).mpr hc.symm
    omega
  unfold queuePopByte
  rw [if_pos hne]
  have hs : q.slot 0 = q.data q.tail := by
    unfold ByteQueue.slot
    rw [Nat.add_zero, Nat.mod_eq_of_lt hwf.2]
  rw [hs]

theorem queuePopByte_empty (q : ByteQueue) (sb : Bool)
    (hwf : q.wf) (h : q.used = 0) :
    queuePopByte q sb =
      (q, if q.closed then PopResult.closedEnd
          else if !sb then PopResult.noData else PopResult.wouldWait) := by
  unfold queuePopByte
  rw [if_neg]
  · split
    · rfl
    · split <;> rfl
  · rw [not_not]
    exact ((q.used_zero_iff hwf).mp h).symm

theorem queuePopByte_wf (q : ByteQueue) (sb : Bool) (hwf : q.wf) :
    (queuePopByte q sb).1.wf := by
  by_cases h : q.used = 0
  · rw [queuePopByte_empty q sb hwf h]
    exact hwf
  · rw [queuePopByte_nonempty q sb hwf (by omega)]
    exact ⟨hwf.1, Nat.mod_lt _ (by have := hwf.2; omega)⟩

theorem queuePopByte_used (q : ByteQueue) (sb : Bool)
    (hwf : q.wf) (h : 0 < q.used) :
    (queuePopByte q sb).1.used = q.used - 1 := by
  rw [queuePopByte_nonempty q sb hwf h]
  exact ring_pop_used q.size q.head q.tail hwf.1 hwf.2 h

theorem queuePopByte_closed_eq (q : ByteQueue) (sb : Bool) :
    (queuePopByte q sb).1.closed = q.closed := by
  unfold queuePopByte
  split
  · rfl
  · split
    · rfl
    · split <;> rfl

theorem queuePopByte_ringList (q : ByteQueue) (sb : Bool)
    (hwf : q.wf) (h : 0 < q.used) :
    q.ringList = q.slot 0 :: (queuePopByte q sb).1.ringList := by
  have hused := queuePopByte_used q sb hwf h
  rw [queuePopByte_nonempty q sb hwf h] at hused ⊢
  unfold ByteQueue.ringList
  rw [hused]
  obtain ⟨u, hu⟩ : ∃ u, q.used = u + 1 := ⟨q.used - 1, by omega⟩
  rw [hu]
  simp only [Nat.add_sub_cancel, List.range_succ_eq_map, List.map_cons, List.map_map]
  congr 1
  apply List.map_congr_left
  intro i hi
  show q.slot (i + 1) = ByteQueue.slot _ i
  unfold ByteQueue.slot
  show q.data ((q.tail + (i + 1)) % q.size) = q.data (((q.tail + 1) % q.size + i) % q.size)
  rw [Nat.mod_add_mod]
  have he : q.tail + 1 + i = q.tail + (i + 1) := by omega
  rw [he]

theorem ByteQueue.ringList_length (q : ByteQueue) : q.ringList.length = q.used := by
  unfold ByteQueue.ringList
  rw [List.length_map, List.length_range]

theorem drainN_spec (n : Nat) : ∀ q : ByteQueue, q.wf → n = q.used →
    (drainN n q).1 = q.ringList ∧ (drainN n q).2.used = 0 ∧
      (drainN n q).2.wf ∧ (drainN n q).2.closed = q.closed := by
  induction n with
  | zero =>
    intro q hwf h
    refine ⟨?_, ?_, hwf, rfl⟩
    · show ([] : List Nat) = q.ringList
      have hl := q.ringList_length
      rw [← h] at hl
      exact (List.length_eq_zero.mp hl).symm
    · show q.used = 0
      omega
  | succ m ih =>
    intro q hwf h
    have hpos : 0 < q.used := by omega
    have hpop : queuePopByte q false =
        ({ q with tail := (q.tail + 1) % q.size }, PopResult.byte (q.slot 0)) :=
      queuePopByte_nonempty q false hwf hpos
    have hwf' : ({ q with tail := (q.tail + 1) % q.size } : ByteQueue).wf := by
      have hq := queuePopByte_wf q false hwf
      rw [hpop] at hq
      exact hq
    have hused' : ({ q with tail := (q.tail + 1) % q.size } : ByteQueue).used = q.used - 1 := by
      have hq := queuePopByte_used q false hwf hpos
      rw [hpop] at hq
      exact hq
    have hring : q.ringList =
        q.slot 0 :: ({ q with tail := (q.tail + 1) % q.size } : ByteQueue).ringList := by
      have hq := queuePopByte_ringList q false hwf hpos
      rw [hpop] at hq
      exact hq
    obtain ⟨ih1, ih2, ih3, ih4⟩ :=
      ih { q with tail := (q.tail + 1) % q.size } hwf' (by omega)
    have hd : drainN (m + 1) q =
        (q.slot 0 :: (drainN m { q with tail := (q.tail + 1) % q.size }).1,
          (drainN m { q with tail := (q.tail + 1) % q.size }).2) := by
      show (match queuePopByte q false with
        | (q', PopResult.byte v) =>
          let r := drainN m q'
          (v :: r.1, r.2)
        | (q', _) => ([], q')) = _
      rw [hpop]
    rw [hd]
    exact ⟨by rw [hring, ih1], ih2, ih3, ih4⟩

/- ### Interleaved producer/consumer traces over one queue -/

/-- One producer or consumer step on a shared queue, as performed by
the two bridged units (single producer, single consumer, interleaved
sequentially by the shared-memory semantics). -/
inductive ChanOp where
  | push (b : Nat)
  | pop
  deriving DecidableEq, Repr

/-- Run a trace of non-blocking pushes and pops.  Returns the final
queue, the bytes whose push was accepted (in push order, unmasked),
and the bytes returned by pops (in pop order). -/
def runOps : List ChanOp → ByteQueue → ByteQueue × List Nat × List Nat
  | [], q => (q, [], [])
  | ChanOp.push b :: ops, q =>
    let s := queuePushByte q b false
    let r := runOps ops s.1
    (r.1, (if s.2 = PushResult.ok then [b] else []) ++ r.2.1, r.2.2)
  | ChanOp.pop :: ops, q =>
    let s := queuePopByte q false
    let r := runOps ops s.1
    match s.2 with
    | PopResult.byte v => (r.1, r.2.1, v :: r.2.2)
    | _ => (r.1, r.2.1, r.2.2)

theorem runOps_push_eq (b : Nat) (ops : List ChanOp) (q : ByteQueue) :
    runOps (ChanOp.push b :: ops) q =
      ((runOps ops (queuePushByte q b false).1).1,
       (if (queuePushByte q b false).2 = PushResult.ok then [b] else []) ++
         (runOps ops (queuePushByte q b false).1).2.1,
       (runOps ops (queuePushByte q b false).1).2.2) := rfl

theorem runOps_pop_eq (ops : List ChanOp) (q : ByteQueue) :
    runOps (ChanOp.pop :: ops) q =
      (match (queuePopByte q false).2 with
       | PopResult.byte v =>
         ((runOps ops (queuePopByte q false).1).1,
          (runOps ops (queuePopByte q false).1).2.1,
          v :: (runOps ops (queuePopByte q false).1).2.2)
       | _ =>
         ((runOps ops (queuePopByte q false).1).1,
          (runOps ops (queuePopByte q false).1).2.1,
          (runOps ops (queuePopByte q false).1).2.2)) := rfl

theorem runOps_spec (ops : List ChanOp) : ∀ q : ByteQueue, q.wf →
    (runOps ops q).1.wf ∧
      (runOps ops q).2.2 ++ (runOps ops q).1.ringList =
        q.ringList ++ (runOps ops q).2.1.map (fun b => b % 256) := by
  induction ops with
  | nil =>
    intro q hwf
    exact ⟨hwf, by simp [runOps]⟩
  | cons op ops ih =>
    intro q hwf
    cases op with
    | push b =>
      obtain ⟨ih1, ih2⟩ := ih (queuePushByte q b false).1 (queuePushByte_wf q b false hwf)
      by_cases h : q.used = q.size - 1
      · have hp := queuePushByte_full q b false hwf h
        have hr : (queuePushByte q b false).2 ≠ PushResult.ok := by
          rw [hp]
          split <;> simp
        have hqq : (queuePushByte q b false).1 = q := by rw [hp]
        simp only [runOps_push_eq, if_neg hr, List.nil_append]
        refine ⟨ih1, ?_⟩
        rw [ih2, hqq]
      · have hlt : q.used < q.size - 1 := by
          have := q.used_lt hwf
          omega
        have hr : (queuePushByte q b false).2 = PushResult.ok := by
          rw [queuePushByte_not_full q b false hwf hlt]
        simp only [runOps_push_eq, if_pos hr]
        refine ⟨ih1, ?_⟩
        rw [ih2, queuePushByte_ringList q b false hwf hlt]
        simp
    | pop =>
      obtain ⟨ih1, ih2⟩ := ih (queuePopByte q false).1 (queuePopByte_wf q false hwf)
      by_cases h : q.used = 0
      · have hp := queuePopByte_empty q false hwf h
        have hqq : (queuePopByte q false).1 = q := by rw [hp]
        have hnb : (queuePopByte q false).2 = PopResult.closedEnd ∨
            (queuePopByte q false).2 = PopResult.noData := by
          rw [hp]
          by_cases hcl : q.closed <;> simp [hcl]
        rcases hnb with hnb | hnb
        · simp only [runOps_pop_eq, hnb]
          rw [hqq]
          rw [hqq] at ih1 ih2
          exact ⟨ih1, ih2⟩
        · simp only [runOps_pop_eq, hnb]
          rw [hqq]
          rw [hqq] at ih1 ih2
          exact ⟨ih1, ih2⟩
      · have hpos : 0 < q.used := by omega
        have hr : (queuePopByte q false).2 = PopResult.byte (q.slot 0) := by
          rw [queuePopByte_nonempty q false hwf hpos]
        simp only [runOps_pop_eq, hr]
        refine ⟨ih1, ?_⟩
        show q.slot 0 :: (runOps ops (queuePopByte q false).1).2.2 ++
            (runOps ops (queuePopByte q false).1).1.ringList =
          q.ringList ++
            ((runOps ops (queuePopByte q false).1).2.1.map (fun b => b % 256))
        rw [queuePopByte_ringList q false hwf hpos]
        simp only [List.cons_append]
        rw [ih2]

theorem queuePushByte_size_eq (q : ByteQueue) (b : Nat) (sb : Bool) :
    (queuePushByte q b sb).1.size = q.size := by
  show (if (q.head + 1) % q.size ≠ q.tail then
      ({ q with data := arrSet q.data q.head (b % 256),
                head := (q.head + 1) % q.size }, PushResult.ok)
    else if q.closed then (q, PushResult.fail)
    else if !sb then (q, PushResult.fail)
    else (q, PushResult.wouldWait)).1.size = q.size
  split
  · rfl
  · split
    · rfl
    · split <;> rfl

theorem queuePushByte_closed_eq (q : ByteQueue) (b : Nat) (sb : Bool) :
    (queuePushByte q b sb).1.closed = q.closed := by
  show (if (q.head + 1) % q.size ≠ q.tail then
      ({ q with data := arrSet q.data q.head (b % 256),
                head := (q.head + 1) % q.size }, PushResult.ok)
    else if q.closed then (q, PushResult.fail)
    else if !sb then (q, PushResult.fail)
    else (q, PushResult.wouldWait)).1.closed = q.closed
  split
  · rfl
  · split
    · rfl
    · split <;> rfl

theorem queuePopByte_size_eq (q : ByteQueue) (sb : Bool) :
    (queuePopByte q sb).1.size = q.size := by
  unfold queuePopByte
  split
  · rfl
  · split
    · rfl
    · split <;> rfl

theorem emptyQueue_wf (C : Nat) (hC : 0 < C) : (emptyQueue C).wf := ⟨hC, hC⟩

theorem emptyQueue_used (C : Nat) : (emptyQueue C).used = 0 := by
  show (0 + C - 0) % C = 0
  simp

theorem emptyQueue_ringList (C : Nat) : (emptyQueue C).ringList = [] := by
  unfold ByteQueue.ringList
  rw [emptyQueue_used]
  rfl

/-- C1: FIFO round-trip over an interleaved trace of non-blocking
pushes and pops starting from an empty channel of capacity `C`: the
bytes returned by the pops of the trace, followed by the bytes
obtained by popping until the channel is empty, are exactly the
accepted pushed bytes (masked to 8 bits, as `queuePushByte` masks with
`0xff`) in push order. -/
theorem C1_fifo_round_trip (C : Nat) (ops : List ChanOp) (hC : 0 < C) :
    (runOps ops (emptyQueue C)).2.2 ++
        (drainN (runOps ops (emptyQueue C)).1.used (runOps ops (emptyQueue C)).1).1 =
      (runOps ops (emptyQueue C)).2.1.map (fun b => b % 256) := by
  obtain ⟨h1, h2⟩ := runOps_spec ops (emptyQueue C) (emptyQueue_wf C hC)
  obtain ⟨d1, _, _, _⟩ :=
    drainN_spec (runOps ops (emptyQueue C)).1.used (runOps ops (emptyQueue C)).1 h1 rfl
  rw [d1, h2, emptyQueue_ringList]
  rfl

/-- Witness for C1 at a concrete trace: two pushes, one pop, one push
on a channel of capacity 3. -/
theorem C1_fifo_round_trip_witness :
    (runOps [ChanOp.push 1, ChanOp.push 2, ChanOp.pop, ChanOp.push 3] (emptyQueue 3)).2.2 ++
        (drainN (runOps [ChanOp.push 1, ChanOp.push 2, ChanOp.pop, ChanOp.push 3]
            (emptyQueue 3)).1.used
          (runOps [ChanOp.push 1, ChanOp.push 2, ChanOp.pop, ChanOp.push 3]
            (emptyQueue 3)).1).1 =
      (runOps [ChanOp.push 1, ChanOp.push 2, ChanOp.pop, ChanOp.push 3]
          (emptyQueue 3)).2.1.map (fun b => b % 256) :=
  C1_fifo_round_trip 3 [ChanOp.push 1, ChanOp.push 2, ChanOp.pop, ChanOp.push 3]
    (by decide)

/-- Iterated non-blocking pushes of the byte stream `bs` into a queue. -/
def pushSeq (bs : Nat → Nat) : Nat → ByteQueue → ByteQueue
  | 0, q => q
  | k + 1, q => (queuePushByte (pushSeq bs k q) (bs k) false).1

theorem pushSeq_inv (C : Nat) (bs : Nat → Nat) (hC : 0 < C) :
    ∀ k, k ≤ C - 1 →
      (pushSeq bs k (emptyQueue C)).wf ∧
        (pushSeq bs k (emptyQueue C)).used = k ∧
        (pushSeq bs k (emptyQueue C)).size = C := by
  intro k
  induction k with
  | zero =>
    intro _
    exact ⟨emptyQueue_wf C hC, emptyQueue_used C, rfl⟩
  | succ m ih =>
    intro hm
    obtain ⟨iwf, iused, isize⟩ := ih (by omega)
    have hlt : (pushSeq bs m (emptyQueue C)).used <
        (pushSeq bs m (emptyQueue C)).size - 1 := by
      rw [iused, isize]
      omega
    refine ⟨queuePushByte_wf _ _ _ iwf, ?_, ?_⟩
    · show (queuePushByte (pushSeq bs m (emptyQueue C)) (bs m) false).1.used = m + 1
      rw [queuePushByte_used _ _ _ iwf hlt, iused]
    · show (queuePushByte (pushSeq bs m (emptyQueue C)) (bs m) false).1.size = C
      rw [queuePushByte_size_eq, isize]

theorem push_full_nonblocking (q : ByteQueue) (b : Nat)
    (hwf : q.wf) (h : q.used = q.size - 1) :
    queuePushByte q b false = (q, PushResult.fail) := by
  rw [queuePushByte_full q b false hwf h]
  by_cases hcl : q.closed <;> simp [hcl]

/-- C2: full/empty disambiguation.  From an empty open channel whose
buffer has length `C`, the first `C-1` non-blocking pushes return
`true` and the `C`-th returns `false` (would block); after one pop,
exactly one further non-blocking push succeeds and the next one fails
again. -/
theorem C2_full_empty_disambiguation (C : Nat) (bs : Nat → Nat) (hC : 2 ≤ C) :
    (∀ k, k < C - 1 →
      (queuePushByte (pushSeq bs k (emptyQueue C)) (bs k) false).2 = PushResult.ok) ∧
    (queuePushByte (pushSeq bs (C - 1) (emptyQueue C)) (bs (C - 1)) false).2 =
      PushResult.fail ∧
    (queuePushByte (queuePopByte (pushSeq bs (C - 1) (emptyQueue C)) false).1
        (bs C) false).2 = PushResult.ok ∧
    (queuePushByte
        (queuePushByte (queuePopByte (pushSeq bs (C - 1) (emptyQueue C)) false).1
          (bs C) false).1
        (bs (C + 1)) false).2 = PushResult.fail := by
  have hC0 : 0 < C := by omega
  obtain ⟨fwf, fused, fsize⟩ := pushSeq_inv C bs hC0 (C - 1) (le_refl _)
  have hpwf := queuePopByte_wf (pushSeq bs (C - 1) (emptyQueue C)) false fwf
  have hpused := queuePopByte_used (pushSeq bs (C - 1) (emptyQueue C)) false fwf
    (by omega)
  have hpsize := queuePopByte_size_eq (pushSeq bs (C - 1) (emptyQueue C)) false
  refine ⟨?_, ?_, ?_, ?_⟩
  · intro k hk
    obtain ⟨kwf, kused, ksize⟩ := pushSeq_inv C bs hC0 k (by omega)
    rw [queuePushByte_not_full _ _ _ kwf (by rw [kused, ksize]; omega)]
  · rw [push_full_nonblocking _ _ fwf (by rw [fused, fsize])]
  · rw [queuePushByte_not_full _ _ _ hpwf (by rw [hpused, hpsize, fused, fsize]; omega)]
  · have h2wf := queuePushByte_wf
      (queuePopByte (pushSeq bs (C - 1) (emptyQueue C)) false).1 (bs C) false hpwf
    have h2used := queuePushByte_used
      (queuePopByte (pushSeq bs (C - 1) (emptyQueue C)) false).1 (bs C) false hpwf
      (by rw [hpused, hpsize, fused, fsize]; omega)
    have h2size := queuePushByte_size_eq
      (queuePopByte (pushSeq bs (C - 1) (emptyQueue C)) false).1 (bs C) false
    rw [push_full_nonblocking _ _ h2wf
      (by rw [h2used, h2size, hpused, hpsize, fused, fsize]; omega)]

/-- Witness for C2 at capacity 3 with the identity byte stream. -/
theorem C2_full_empty_disambiguation_witness :
    (∀ k, k < 3 - 1 →
      (queuePushByte (pushSeq (fun i => i) k (emptyQueue 3)) k false).2 =
        PushResult.ok) ∧
    (queuePushByte (pushSeq (fun i => i) (3 - 1) (emptyQueue 3)) (3 - 1) false).2 =
      PushResult.fail ∧
    (queuePushByte (queuePopByte (pushSeq (fun i => i) (3 - 1) (emptyQueue 3)) false).1
        3 false).2 = PushResult.ok ∧
    (queuePushByte
        (queuePushByte
          (queuePopByte (pushSeq (fun i => i) (3 - 1) (emptyQueue 3)) false).1
          3 false).1
        (3 + 1) false).2 = PushResult.fail :=
  C2_full_empty_disambiguation 3 (fun i => i) (by decide)

/-- C3 counterexample: a closed channel with free slots still accepts
a push.  `queuePushByte` checks the closed flag only after finding the
ring full, so on this closed, empty queue of capacity 3 the push
stores the byte and returns `true` (`ok`) for both the blocking and
the non-blocking variant — the claim says it must return `false`. -/
theorem C3_push_after_close_counterexample :
    (queuePushByte
        { size := 3, data := fun _ => 0, head := 0, tail := 0, closed := true }
        65 true).2 = PushResult.ok ∧
    (queuePushByte
        { size := 3, data := fun _ => 0, head := 0, tail := 0, closed := true }
        65 false).2 = PushResult.ok ∧
    PushResult.ok ≠ PushResult.fail := by
  refine ⟨rfl, rfl, by decide⟩

/-- C3 (amended): on a channel whose closed flag is set,
`queuePushByte` returns `false` only when the ring is full (then for
both the blocking and the non-blocking variant, without waiting); a
push into a closed channel with a free slot still succeeds.
`queuePopByte` on a closed channel first returns the buffered bytes in
order and, once empty, returns `null` (`closedEnd`), which is distinct
from the non-blocking would-block value `undefined` (`noData`). -/
theorem C3_closed_channel_push_pop (q : ByteQueue) (b : Nat) (sb : Bool)
    (hwf : q.wf) (hcl : q.closed = true) :
    (q.used = q.size - 1 → queuePushByte q b sb = (q, PushResult.fail)) ∧
    (q.used = 0 → queuePopByte q sb = (q, PopResult.closedEnd)) ∧
    (drainN q.used q).1 = q.ringList ∧
    queuePopByte (drainN q.used q).2 sb = ((drainN q.used q).2, PopResult.closedEnd) ∧
    PopResult.closedEnd ≠ PopResult.noData := by
  obtain ⟨d1, d2, d3, d4⟩ := drainN_spec q.used q hwf rfl
  refine ⟨?_, ?_, d1, ?_, by decide⟩
  · intro h
    rw [queuePushByte_full q b sb hwf h, hcl]
    rfl
  · intro h
    rw [queuePopByte_empty q sb hwf h, hcl]
    rfl
  · rw [queuePopByte_empty (drainN q.used q).2 sb d3 d2]
    rw [d4, hcl]
    rfl

/-- Witness for C3 (amended) on a concrete closed queue holding two
buffered bytes. -/
theorem C3_closed_channel_push_pop_witness :
    (({ size := 3, data := fun j => j + 5, head := 2, tail := 0,
        closed := true } : ByteQueue).used =
          ({ size := 3, data := fun j => j + 5, head := 2, tail := 0,
              closed := true } : ByteQueue).size - 1 →
      queuePushByte
          { size := 3, data := fun j => j + 5, head := 2, tail := 0, closed := true }
          7 true =
        ({ size := 3, data := fun j => j + 5, head := 2, tail := 0, closed := true },
          PushResult.fail)) ∧
    (({ size := 3, data := fun j => j + 5, head := 2, tail := 0,
        closed := true } : ByteQueue).used = 0 →
      queuePopByte
          { size := 3, data := fun j => j + 5, head := 2, tail := 0, closed := true }
          true =
        ({ size := 3, data := fun j => j + 5, head := 2, tail := 0, closed := true },
          PopResult.closedEnd)) ∧
    (drainN
        ({ size := 3, data := fun j => j + 5, head := 2, tail := 0,
            closed := true } : ByteQueue).used
        { size := 3, data := fun j => j + 5, head := 2, tail := 0,
          closed := true }).1 =
      ({ size := 3, data := fun j => j + 5, head := 2, tail := 0,
          closed := true } : ByteQueue).ringList ∧
    queuePopByte
        (drainN
          ({ size := 3, data := fun j => j + 5, head := 2, tail := 0,
              closed := true } : ByteQueue).used
          { size := 3, data := fun j => j + 5, head := 2, tail := 0,
            closed := true }).2 true =
      ((drainN
          ({ size := 3, data := fun j => j + 5, head := 2, tail := 0,
              closed := true } : ByteQueue).used
          { size := 3, data := fun j => j + 5, head := 2, tail := 0,
            closed := true }).2, PopResult.closedEnd) ∧
    PopResult.closedEnd ≠ PopResult.noData :=
  C3_closed_channel_push_pop
    { size := 3, data := fun j => j + 5, head := 2, tail := 0, closed := true }
    7 true (by decide) rfl

/- ### VirtualDevice read (FS.registerDevice read handler) -/

/-- Result of the device read: `eagain` models `throw new
FS.ErrnoError(EAGAIN)`, `count n` models `return n`. -/
inductive ReadOutcome where
  | eagain
  | count (n : Nat)
  deriving DecidableEq, Repr

/-- The copy loop of the device `read(stream, buffer, offset, length)`
handler: pop immediately available bytes (`readAvailableByte`, a
non-blocking `queuePopByte`) while the request is not filled, breaking
as soon as the pop reports no byte or `hasReadableData` turns false.
Returns the queue afterwards and the copied bytes. -/
def deviceReadLoop : Nat → ByteQueue → ByteQueue × List Nat
  | 0, q => (q, [])
  | n + 1, q =>
    match queuePopByte q false with
    | (q', PopResult.byte v) =>
      if queueHasData q' then
        let r := deviceReadLoop n q'
        (r.1, v :: r.2)
      else (q', [v])
    | (q', _) => (q', [])

/-- The device `read` handler: run the copy loop, then signal EAGAIN
exactly when nothing was copied and the inbound channel is not closed
(`isReadableClosed`), otherwise return the byte count. -/
def deviceRead (q : ByteQueue) (len : Nat) : ByteQueue × List Nat × ReadOutcome :=
  let r := deviceReadLoop len q
  if r.2.length = 0 ∧ ¬ r.1.closed = true then (r.1, r.2, ReadOutcome.eagain)
  else (r.1, r.2, ReadOutcome.count r.2.length)

theorem deviceRead_eq (q : ByteQueue) (len : Nat) :
    deviceRead q len =
      (if (deviceReadLoop len q).2.length = 0 ∧
          ¬ (deviceReadLoop len q).1.closed = true
       then ((deviceReadLoop len q).1, (deviceReadLoop len q).2, ReadOutcome.eagain)
       else ((deviceReadLoop len q).1, (deviceReadLoop len q).2,
          ReadOutcome.count (deviceReadLoop len q).2.length)) := rfl

theorem queueHasData_iff (q : ByteQueue) (hwf : q.wf) :
    queueHasData q = true ↔ 0 < q.used := by
  unfold queueHasData
  rw [bne_iff_ne]
  constructor
  · intro h
    rcases Nat.eq_zero_or_pos q.used with h0 | h0
    · exact absurd ((q.used_zero_iff hwf).mp h0) h
    · exact h0
  · intro h hc
    have := (q.used_zero_iff hwf).mpr hc
    omega

theorem deviceReadLoop_pop_eq (n : Nat) (q : ByteQueue) :
    deviceReadLoop (n + 1) q =
      (match (queuePopByte q false).2 with
       | PopResult.byte v =>
         if queueHasData (queuePopByte q false).1 then
           ((deviceReadLoop n (queuePopByte q false).1).1,
            v :: (deviceReadLoop n (queuePopByte q false).1).2)
         else ((queuePopByte q false).1, [v])
       | _ => ((queuePopByte q false).1, [])) := by
  show (match queuePopByte q false with
    | (q', PopResult.byte v) =>
      if queueHasData q' then
        let r := deviceReadLoop n q'
        (r.1, v :: r.2)
      else (q', [v])
    | (q', _) => (q', [])) = _
  rcases hq : queuePopByte q false with ⟨q', r⟩
  cases r <;> rfl

theorem deviceReadLoop_spec (n : Nat) : ∀ q : ByteQueue, q.wf →
    (deviceReadLoop n q).2 = q.ringList.take n ∧
      (deviceReadLoop n q).1.closed = q.closed := by
  induction n with
  | zero =>
    intro q hwf
    exact ⟨by rw [List.take_zero]; rfl, rfl⟩
  | succ m ih =>
    intro q hwf
    by_cases h : q.used = 0
    · have hp := queuePopByte_empty q false hwf h
      have hqq : (queuePopByte q false).1 = q := by rw [hp]
      have hring : q.ringList = [] := by
        have hl := q.ringList_length
        rw [h] at hl
        exact List.length_eq_zero.mp hl
      have hnb : (queuePopByte q false).2 = PopResult.closedEnd ∨
          (queuePopByte q false).2 = PopResult.noData := by
        rw [hp]
        by_cases hcl : q.closed <;> simp [hcl]
      rcases hnb with hnb | hnb <;>
        rw [deviceReadLoop_pop_eq, hnb] <;>
        exact ⟨by rw [hring]; rfl, by rw [hqq]⟩
    · have hpos : 0 < q.used := by omega
      have hr : (queuePopByte q false).2 = PopResult.byte (q.slot 0) := by
        rw [queuePopByte_nonempty q false hwf hpos]
      have hwf' := queuePopByte_wf q false hwf
      have hused' := queuePopByte_used q false hwf hpos
      have hcl' := queuePopByte_closed_eq q false
      have hring := queuePopByte_ringList q false hwf hpos
      simp only [deviceReadLoop_pop_eq, hr]
      by_cases hd : queueHasData (queuePopByte q false).1 = true
      · rw [if_pos hd]
        obtain ⟨ih1, ih2⟩ := ih (queuePopByte q false).1 hwf'
        refine ⟨?_, by rw [ih2, hcl']⟩
        show q.slot 0 :: (deviceReadLoop m (queuePopByte q false).1).2 =
          q.ringList.take (m + 1)
        rw [ih1, hring, List.take_succ_cons]
      · rw [if_neg hd]
        have hu0 : (queuePopByte q false).1.used = 0 := by
          rcases Nat.eq_zero_or_pos (queuePopByte q false).1.used with h0 | h0
          · exact h0
          · exact absurd ((queueHasData_iff _ hwf').mpr h0) hd
        have hring' : (queuePopByte q false).1.ringList = [] := by
          have hl := (queuePopByte q false).1.ringList_length
          rw [hu0] at hl
          exact List.length_eq_zero.mp hl
        refine ⟨?_, hcl'⟩
        show [q.slot 0] = q.ringList.take (m + 1)
        rw [hring, hring', List.take_succ_cons, List.take_nil]

/-- C9: VirtualDevice read semantics, for any well-formed channel
state and request length `len > 0`: the read copies exactly the
immediately available bytes (up to `len`) without blocking; it raises
EAGAIN iff zero bytes were copied and the inbound channel is not
closed; it returns 0 exactly when the channel is empty and closed; and
whenever at least one byte is buffered it returns a positive count. -/
theorem C9_device_read_semantics (q : ByteQueue) (len : Nat)
    (hwf : q.wf) (hlen : 0 < len) :
    (deviceRead q len).2.1 = q.ringList.take len ∧
    ((deviceRead q len).2.2 = ReadOutcome.eagain ↔
      (q.used = 0 ∧ q.closed = false)) ∧
    ((deviceRead q len).2.2 = ReadOutcome.count 0 ↔
      (q.used = 0 ∧ q.closed = true)) ∧
    (0 < q.used → ∃ n, (deviceRead q len).2.2 = ReadOutcome.count n ∧ 0 < n) := by
  obtain ⟨l1, l2⟩ := deviceReadLoop_spec len q hwf
  have hlen0 : (deviceReadLoop len q).2.length = 0 ↔ q.used = 0 := by
    rw [l1, List.length_take]
    have hl := q.ringList_length
    constructor
    · intro h
      omega
    · intro h
      omega
  rw [deviceRead_eq]
  by_cases hc : (deviceReadLoop len q).2.length = 0 ∧
      ¬ (deviceReadLoop len q).1.closed = true
  · rw [if_pos hc]
    obtain ⟨hz, hop⟩ := hc
    rw [l2] at hop
    have hu : q.used = 0 := hlen0.mp hz
    have hcf : q.closed = false := by
      cases hb : q.closed
      · rfl
      · exact absurd hb hop
    refine ⟨l1, ?_, ?_, ?_⟩
    · simp only [true_iff]
      exact ⟨hu, hcf⟩
    · constructor
      · intro hcontra
        exact absurd hcontra (by simp)
      · intro hcontra
        exact absurd hcontra.2 hop
    · intro hpos
      omega
  · rw [if_neg hc]
    refine ⟨l1, ?_, ?_, ?_⟩
    · constructor
      · intro hcontra
        exact absurd hcontra (by simp)
      · intro hh
        obtain ⟨hu, hcf⟩ := hh
        exact absurd ⟨hlen0.mpr hu, by rw [l2, hcf]; simp⟩ hc
    · constructor
      · intro hh
        simp only [ReadOutcome.count.injEq] at hh
        have hu : q.used = 0 := hlen0.mp hh
        refine ⟨hu, ?_⟩
        cases hb : q.closed
        · exact absurd ⟨hlen0.mpr hu, by rw [l2, hb]; simp⟩ hc
        · rfl
      · intro hh
        have hz := hlen0.mpr hh.1
        rw [hz]
    · intro hpos
      have hnz : (deviceReadLoop len q).2.length ≠ 0 := by
        intro hz
        have := hlen0.mp hz
        omega
      exact ⟨(deviceReadLoop len q).2.length, rfl, by omega⟩

/-- Witness for C9 on a concrete queue holding two bytes, reading up
to 5. -/
theorem C9_device_read_semantics_witness :
    (deviceRead
        { size := 4, data := fun j => j + 9, head := 2, tail := 0, closed := false }
        5).2.1 =
      ({ size := 4, data := fun j => j + 9, head := 2, tail := 0,
          closed := false } : ByteQueue).ringList.take 5 ∧
    ((deviceRead
        { size := 4, data := fun j => j + 9, head := 2, tail := 0, closed := false }
        5).2.2 = ReadOutcome.eagain ↔
      (({ size := 4, data := fun j => j + 9, head := 2, tail := 0,
          closed := false } : ByteQueue).used = 0 ∧
        ({ size := 4, data := fun j => j + 9, head := 2, tail := 0,
            closed := false } : ByteQueue).closed = false)) ∧
    ((deviceRead
        { size := 4, data := fun j => j + 9, head := 2, tail := 0, closed := false }
        5).2.2 = ReadOutcome.count 0 ↔
      (({ size := 4, data := fun j => j + 9, head := 2, tail := 0,
          closed := false } : ByteQueue).used = 0 ∧
        ({ size := 4, data := fun j => j + 9, head := 2, tail := 0,
            closed := false } : ByteQueue).closed = true)) ∧
    (0 < ({ size := 4, data := fun j => j + 9, head := 2, tail := 0,
            closed := false } : ByteQueue).used →
      ∃ n, (deviceRead
          { size := 4, data := fun j => j + 9, head := 2, tail := 0, closed := false }
          5).2.2 = ReadOutcome.count n ∧ 0 < n) :=
  C9_device_read_semantics
    { size := 4, data := fun j => j + 9, head := 2, tail := 0, closed := false }
    5 (by decide) (by decide)

/- ### Assuan data escaping (dirmngr bridge worker) -/

/-- ASCII model of `TextEncoder.encode` (all protocol text involved is
ASCII, where UTF-8 is the identity on code points). -/
def encodeAscii (s : String) : List Nat := s.data.map Char.toNat

/-- ASCII model of `TextDecoder.decode` on a byte list. -/
def decodeAscii (bs : List Nat) : String := ⟨bs.map Char.ofNat⟩

/-- One uppercase hex digit, as produced by
`b.toString(16).toUpperCase()`. -/
def hexDigitU (n : Nat) : Char :=
  if n < 10 then Char.ofNat (48 + n) else Char.ofNat (55 + n)

/-- The per-byte step of `assuanEscapeChunk`: bytes outside printable
ASCII, plus `\n`, `\r` and `%` itself, become `%XX` (uppercase hex,
two digits via `padStart(2, '0')`); every other byte is emitted as the
literal character (`String.fromCharCode`). -/
def escapeByte (b : Nat) : List Char :=
  if b < 0x20 ∨ 0x7f ≤ b ∨ b = 0x0a ∨ b = 0x0d ∨ b = 0x25 then
    ['%', hexDigitU (b / 16), hexDigitU (b % 16)]
  else [Char.ofNat b]

/-- `assuanEscapeChunk(buf)` from the source: concatenate the per-byte
pieces. -/
def assuanEscapeChunk (buf : List Nat) : String :=
  ⟨(buf.map escapeByte).flatten⟩

/-- Value of a hex digit character, case-insensitive. -/
def hexVal (c : Char) : Option Nat :=
  if '0' ≤ c ∧ c ≤ '9' then some (c.toNat - 48)
  else if 'a' ≤ c ∧ c ≤ 'f' then some (c.toNat - 87)
  else if 'A' ≤ c ∧ c ≤ 'F' then some (c.toNat - 55)
  else none

/-- Percent-decoder used to state the round-trip: every `%XX` hex
sequence becomes the byte `XX`; any other character stands for its own
code point. -/
def unesc : List Char → List Nat
  | [] => []
  | '%' :: c1 :: c2 :: rest2 =>
    (match hexVal c1, hexVal c2 with
     | some h1, some h2 => (16 * h1 + h2) :: unesc rest2
     | _, _ => ('%').toNat :: unesc (c1 :: c2 :: rest2))
  | c :: rest => c.toNat :: unesc rest
  termination_by l => l.length
  decreasing_by
    · simp
      omega
    · simp
    · simp

/-- Percent-decode a whole string to bytes. -/
def percentUnescape (s : String) : List Nat := unesc s.data

theorem unesc_nil : unesc [] = [] := by
  simp [unesc]

theorem unesc_cons_percent_hex (c1 c2 : Char) (r : List Char) (v1 v2 : Nat)
    (h1 : hexVal c1 = some v1) (h2 : hexVal c2 = some v2) :
    unesc ('%' :: c1 :: c2 :: r) = (16 * v1 + v2) :: unesc r := by
  simp [unesc, h1, h2]

theorem unesc_cons_lit (c : Char) (r : List Char) (h : ¬ c = '%') :
    unesc (c :: r) = c.toNat :: unesc r := by
  cases r with
  | nil => simp [unesc, h]
  | cons c1 r1 =>
    cases r1 with
    | nil => simp [unesc, h]
    | cons c2 r2 => simp [unesc, h]

theorem hexVal_hexDigitU : ∀ n, n < 16 → hexVal (hexDigitU n) = some n := by
  decide

theorem escapeByte_lit : ∀ b, b < 256 →
    ¬ (b < 0x20 ∨ 0x7f ≤ b ∨ b = 0x0a ∨ b = 0x0d ∨ b = 0x25) →
    (¬ Char.ofNat b = '%' ∧ (Char.ofNat b).toNat = b) := by
  decide

theorem unesc_escapeByte (b : Nat) (hb : b < 256) (l : List Char) :
    unesc (escapeByte b ++ l) = b :: unesc l := by
  by_cases hc : b < 0x20 ∨ 0x7f ≤ b ∨ b = 0x0a ∨ b = 0x0d ∨ b = 0x25
  · rw [escapeByte, if_pos hc]
    show unesc ('%' :: hexDigitU (b / 16) :: hexDigitU (b % 16) :: l) = b :: unesc l
    rw [unesc_cons_percent_hex _ _ _ _ _
      (hexVal_hexDigitU (b / 16) (by omega)) (hexVal_hexDigitU (b % 16) (by omega))]
    rw [Nat.div_add_mod]
  · obtain ⟨hne, htn⟩ := escapeByte_lit b hb hc
    rw [escapeByte, if_neg hc]
    show unesc (Char.ofNat b :: l) = b :: unesc l
    rw [unesc_cons_lit _ _ hne, htn]

theorem unesc_escape_flatten (buf : List Nat) (hb : ∀ b ∈ buf, b < 256) :
    ∀ l : List Char, unesc ((buf.map escapeByte).flatten ++ l) = buf ++ unesc l := by
  induction buf with
  | nil =>
    intro l
    rfl
  | cons b rest ih =>
    intro l
    show unesc ((escapeByte b ++ (rest.map escapeByte).flatten) ++ l) =
      (b :: rest) ++ unesc l
    rw [List.append_assoc,
      unesc_escapeByte b (hb b (List.mem_cons_self b rest)) _,
      ih (fun x hx => hb x (List.mem_cons_of_mem b hx)) l]
    rfl

theorem percentUnescape_escape (buf : List Nat) (hb : ∀ b ∈ buf, b < 256) :
    percentUnescape (assuanEscapeChunk buf) = buf := by
  show unesc ((buf.map escapeByte).flatten) = buf
  have h := unesc_escape_flatten buf hb []
  rw [List.append_nil] at h
  rw [h, unesc_nil, List.append_nil]

theorem assuanEscapeChunk_single (b : Nat) :
    (assuanEscapeChunk [b]).data = escapeByte b := by
  show ([b].map escapeByte).flatten = escapeByte b
  simp

/-- C7: escape round-trip and byte classification.  For every byte
array, percent-decoding the output of `assuanEscapeChunk` reproduces
the array exactly; a byte below `0x20`, at or above `0x7f`, or equal
to `0x0a`/`0x0d`/`0x25` is emitted as an uppercase two-digit `%XX`
escape, and every other byte is emitted literally. -/
theorem C7_escape_round_trip (buf : List Nat) (hb : ∀ b ∈ buf, b < 256) :
    percentUnescape (assuanEscapeChunk buf) = buf ∧
    (∀ b, b < 256 →
      ((b < 0x20 ∨ 0x7f ≤ b ∨ b = 0x0a ∨ b = 0x0d ∨ b = 0x25) →
        (assuanEscapeChunk [b]).data =
          ['%', hexDigitU (b / 16), hexDigitU (b % 16)]) ∧
      (¬ (b < 0x20 ∨ 0x7f ≤ b ∨ b = 0x0a ∨ b = 0x0d ∨ b = 0x25) →
        (assuanEscapeChunk [b]).data = [Char.ofNat b])) := by
  refine ⟨percentUnescape_escape buf hb, ?_⟩
  intro b _
  constructor
  · intro hc
    rw [assuanEscapeChunk_single, escapeByte, if_pos hc]
  · intro hc
    rw [assuanEscapeChunk_single, escapeByte, if_neg hc]

/-- Witness for C7 on a byte array containing the special bytes named
by the claim. -/
theorem C7_escape_round_trip_witness :
    percentUnescape (assuanEscapeChunk [0x00, 0x0a, 0x0d, 0x25, 0x7f, 65]) =
      [0x00, 0x0a, 0x0d, 0x25, 0x7f, 65] ∧
    (∀ b, b < 256 →
      ((b < 0x20 ∨ 0x7f ≤ b ∨ b = 0x0a ∨ b = 0x0d ∨ b = 0x25) →
        (assuanEscapeChunk [b]).data =
          ['%', hexDigitU (b / 16), hexDigitU (b % 16)]) ∧
      (¬ (b < 0x20 ∨ 0x7f ≤ b ∨ b = 0x0a ∨ b = 0x0d ∨ b = 0x25) →
        (assuanEscapeChunk [b]).data = [Char.ofNat b])) :=
  C7_escape_round_trip [0x00, 0x0a, 0x0d, 0x25, 0x7f, 65] (by decide)

/- ### Chunked data lines (`sendDataBuffer`) -/

/-- The chunking of `sendDataBuffer`: `subarray(i, i + 220)` slices of
at most 220 raw bytes. -/
def chunkBytes (buf : List Nat) : List (List Nat) :=
  if buf = [] then [] else buf.take 220 :: chunkBytes (buf.drop 220)
  termination_by buf.length
  decreasing_by
    rename_i h
    have hp : 0 < buf.length := List.length_pos.mpr h
    simp only [List.length_drop]
    omega

theorem chunkBytes_flatten (buf : List Nat) : (chunkBytes buf).flatten = buf := by
  induction buf using chunkBytes.induct with
  | case1 =>
    rw [chunkBytes, if_pos rfl]
    rfl
  | case2 buf hnil ih =>
    rw [chunkBytes, if_neg hnil]
    show buf.take 220 ++ (chunkBytes (buf.drop 220)).flatten = buf
    rw [ih, List.take_append_drop]

theorem chunkBytes_ne_nil (buf : List Nat) (h : buf ≠ []) : chunkBytes buf ≠ [] := by
  rw [chunkBytes, if_neg h]
  exact List.cons_ne_nil _ _

theorem chunkBytes_mem_sub (buf : List Nat) :
    ∀ c ∈ chunkBytes buf, ∀ b ∈ c, b ∈ buf := by
  induction buf using chunkBytes.induct with
  | case1 =>
    intro c hc
    rw [chunkBytes, if_pos rfl] at hc
    exact absurd hc (List.not_mem_nil c)
  | case2 buf hnil ih =>
    rw [chunkBytes, if_neg hnil]
    intro c hc b hbc
    rcases List.mem_cons.mp hc with hc | hc
    · exact List.take_subset 220 buf (hc ▸ hbc)
    · exact List.drop_subset 220 buf (ih c hc b hbc)

/-- `sendDataBuffer(buffer)`: one `D `-prefixed line per 220-byte
chunk of the escaped payload, then a terminating `END` line. -/
def sendDataBufferLines (buf : List Nat) : List String :=
  (chunkBytes buf).map (fun c => "D " ++ assuanEscapeChunk c) ++ ["END"]

/- ### Assuan protocol lines and command parsing -/

/-- `sendOk(suffix)`: `OK <suffix>` or bare `OK`. -/
def okLine (suffix : String) : String :=
  if suffix ≠ "" then "OK " ++ suffix else "OK"

/-- `sendStatus(keyword, value)`: `S <KEYWORD> [value]`, the value
omitted when falsy. -/
def statusLine (keyword value : String) : String :=
  if value ≠ "" then "S " ++ keyword ++ " " ++ value else "S " ++ keyword

/-- `trim()` over the character list (kernel-reducible model of the
JS trim; the protocol text is ASCII, where the whitespace sets
agree). -/
def listTrim (cs : List Char) : List Char :=
  ((cs.dropWhile Char.isWhitespace).reverse.dropWhile Char.isWhitespace).reverse

/-- `trim()` on strings. -/
def jsTrim (s : String) : String := ⟨listTrim s.data⟩

/-- `startsWith(pre)` over character lists. -/
def startsWithChars : List Char → List Char → Bool
  | [], _ => true
  | _ :: _, [] => false
  | p :: ps, c :: cs => p == c && startsWithChars ps cs

/-- `s.startsWith(pre)` (case-sensitive, as in JS). -/
def jsStartsWith (s pre : String) : Bool := startsWithChars pre.data s.data

/-- `s.endsWith(c)` for a one-character suffix. -/
def jsEndsWith (s : String) (c : Char) : Bool := s.data.getLast? == some c

/-- `s.slice(n)` for ASCII strings. -/
def jsDrop (s : String) (n : Nat) : String := ⟨s.data.drop n⟩

/-- `s.slice(0, -1)`. -/
def jsDropRight1 (s : String) : String := ⟨s.data.dropLast⟩

/-- The `replace(/\r?\n/g, ' ')` step of `sendErr`. -/
def collapseNewlines : List Char → List Char
  | [] => []
  | '\r' :: '\n' :: r => ' ' :: collapseNewlines r
  | '\n' :: r => ' ' :: collapseNewlines r
  | c :: r => c :: collapseNewlines r

/-- `sendErr(text)`: newlines collapsed to spaces, trimmed; `ERR 1
<msg>` or bare `ERR 1`. -/
def errLine (text : String) : String :=
  let msg := jsTrim ⟨collapseNewlines text.data⟩
  if msg ≠ "" then "ERR 1 " ++ msg else "ERR 1"

/-- `toUpperCase()` on the ASCII command words used here. -/
def jsToUpper (s : String) : String := ⟨s.data.map Char.toUpper⟩

/-- `toLowerCase()` on the ASCII keys used here. -/
def jsToLower (s : String) : String := ⟨s.data.map Char.toLower⟩

/-- The command-line split of `processCommand`: `indexOf(' ')` (the
keyword is the whole line if there is no space), keyword uppercased,
argument text after the first space, trimmed. -/
def splitCommand (line : String) : String × String :=
  let cs := line.data
  let cmd := cs.takeWhile (fun c => c != ' ')
  if cmd.length = cs.length then (jsToUpper ⟨cmd⟩, "")
  else (jsToUpper ⟨cmd⟩, jsTrim ⟨cs.drop (cmd.length + 1)⟩)

/-- Tokenizer for `split(/\s+/)` on a trimmed string: maximal
non-whitespace runs, in order. -/
def splitWsAux : List Char → List Char → List (List Char)
  | [], cur => if cur.isEmpty then [] else [cur.reverse]
  | c :: cs, cur =>
    if c.isWhitespace then
      if cur.isEmpty then splitWsAux cs [] else cur.reverse :: splitWsAux cs []
    else splitWsAux cs (c :: cur)

/-- `splitTokens(raw)`: empty for blank input, else the trimmed input
split on whitespace runs (`split(/\s+/)`, which never yields empty
tokens on a trimmed string). -/
def splitTokens (raw : String) : List String :=
  if jsTrim raw = "" then []
  else (splitWsAux (jsTrim raw).data []).map (fun t => (⟨t⟩ : String))

/-- Result of `parseDelimitedArgs`. -/
structure DelimitedArgs where
  options : List String
  values : List String
  deriving DecidableEq, Repr

/-- `parseDelimitedArgs(raw)`: tokens before/after the first `--`
delimiter (no delimiter: everything is an option, no values). -/
def parseDelimitedArgs (raw : String) : DelimitedArgs :=
  let tokens := splitTokens raw
  match tokens.findIdx? (fun t => t == "--") with
  | none => ⟨tokens, []⟩
  | some i => ⟨tokens.take i, tokens.drop (i + 1)⟩

/-- ASCII model of `decodeURIComponent`: decodes `%XX` hex escapes
whose byte is below `0x80`; a malformed escape, or a byte at or above
`0x80` (which would enter multi-byte UTF-8 validation, out of the
ASCII scope of this protocol), yields `none`, modelling the thrown
`URIError`. -/
def decodeUriAscii : List Char → Option (List Char)
  | [] => some []
  | '%' :: c1 :: c2 :: rest =>
    (match hexVal c1, hexVal c2 with
     | some h1, some h2 =>
       if 16 * h1 + h2 < 0x80 then
         (decodeUriAscii rest).map (fun r => Char.ofNat (16 * h1 + h2) :: r)
       else none
     | _, _ => none)
  | ['%'] => none
  | ['%', _] => none
  | c :: rest => (decodeUriAscii rest).map (fun r => c :: r)

/-- `decodePercentPlus(value)` from the source: empty input yields the
empty string; otherwise `+` is rewritten to `%20` and the result is
percent-decoded; if decoding throws, the original string is
returned. -/
def decodePercentPlus (value : String) : String :=
  if value = "" then ""
  else
    let plusNorm :=
      (value.data.map (fun c => if c = '+' then ['%', '2', '0'] else [c])).flatten
    match decodeUriAscii plusNorm with
    | some r => ⟨r⟩
    | none => value

/- ### Keyserver endpoint normalization -/

/-- The character class `[a-z0-9+.-]` under the regex `i` flag. -/
def isSchemeTailChar (c : Char) : Bool :=
  c.isAlpha || c.isDigit || c == '+' || c == '.' || c == '-'

/-- The anchored test `/^[a-z][a-z0-9+.-]*:\/\//i`: a letter, then a
maximal run of scheme-tail characters (the class excludes `:`, so the
greedy star is deterministic), then the literal `://`. -/
def hasUriScheme (s : String) : Bool :=
  match s.data with
  | [] => false
  | c :: rest =>
    c.isAlpha && ((rest.dropWhile isSchemeTailChar).take 3 == [':', '/', '/'])

/-- `normalizeKeyserver(input)` from the source: trim, default when
blank, prepend `hkps://` when no scheme is present, rewrite the
`hkp://` and `hkps://` prefixes (case-sensitively, via `startsWith`),
strip one trailing slash. -/
def normalizeKeyserver (input : String) : String :=
  let v0 := jsTrim input
  let v1 := if v0 = "" then "hkps://keys.openpgp.org" else v0
  let v2 := if !hasUriScheme v1 then "hkps://" ++ v1 else v1
  let v3 := if jsStartsWith v2 "hkp://" then "http://" ++ jsDrop v2 6 else v2
  let v4 := if jsStartsWith v3 "hkps://" then "https://" ++ jsDrop v3 7 else v3
  if jsEndsWith v4 '/' then jsDropRight1 v4 else v4

/- ### AssuanEngine command processing -/

/-- AssuanEngine per-session state: the ordered keyserver endpoint
list (`state.keyservers`). -/
structure EngineState where
  keyservers : List String
  deriving DecidableEq, Repr

/-- The session state created by `runBridge`. -/
def initState : EngineState := ⟨[normalizeKeyserver "hkps://keys.openpgp.org"]⟩

/-- `sendOk('Dirmngr fetch shim ready')`: the greeting, sent at start
and re-sent on session reset. -/
def greetingLine : String := okLine "Dirmngr fetch shim ready"

/-- The narrow fetch collaborator behind `fetchLookup(server, op,
search)` (out-of-scope HTTP logic): body bytes, or a thrown error
message. -/
abbrev FetchLookup : Type := String → String → String → Except String (List Nat)

/-- The collaborator behind `fetchDirect(url)`: final source URL and
body bytes, or a thrown error message. -/
abbrev FetchDirect : Type := String → Except String (String × List Nat)

/-- `values.join(' ')`. -/
def joinSpace (l : List String) : String := String.intercalate " " l

/-- The `KS_GET` fetch loop: fetch each pattern in order via the
collaborator; a block that is non-empty and does not end in `0x0a`
gets a newline byte appended; blocks are concatenated.  An error
aborts the remaining fetches, as the thrown exception does. -/
def ksGetFetchAll (fl : FetchLookup) (source : String) :
    List String → Except String (List Nat)
  | [] => Except.ok []
  | p :: ps =>
    match fl source "get" p with
    | Except.error e => Except.error e
    | Except.ok body =>
      match ksGetFetchAll fl source ps with
      | Except.error e => Except.error e
      | Except.ok rest =>
        Except.ok
          ((body ++ (if body ≠ [] ∧ body.getLast? ≠ some 10 then [10] else [])) ++
            rest)

/-- The `KEYSERVER` argument handling: tokenize, remove one `--clear`
token (clearing the list when present), append each normalized,
percent-decoded endpoint. -/
def keyserverTokens (st : EngineState) (argText : String) : List String :=
  let tokens := splitTokens argText
  let p :=
    match tokens.findIdx? (fun t => t == "--clear") with
    | some i => (tokens.take i ++ tokens.drop (i + 1), ([] : List String))
    | none => (tokens, st.keyservers)
  p.2 ++ p.1.map (fun t => normalizeKeyserver (decodePercentPlus t))

/-- The `if (!state.keyservers.length) push built-in default` step of
the `KEYSERVER` handler. -/
def ensureNonemptyKeyservers (ks0 : List String) : List String :=
  if ks0 = [] then ["https://keys.openpgp.org"] else ks0

theorem ensureNonemptyKeyservers_ne_nil (ks0 : List String) :
    ensureNonemptyKeyservers ks0 ≠ [] := by
  unfold ensureNonemptyKeyservers
  split
  · exact List.cons_ne_nil _ _
  · assumption

/-- `processCommand(line, state, proto)` from the source, with the
out-of-scope fetchers passed as collaborators and the response
modelled as the list of `writeLine` calls.  A collaborator error
models the exception that `runBridge` catches and answers with
`sendErr`; lines already written before the throw (`KS_GET` writes its
`SOURCE` status before fetching, `KS_SEARCH` fetches first) are kept.
Returns the state, the emitted lines, and the `resetSession` flag. -/
def processCommand (fl : FetchLookup) (fd : FetchDirect)
    (line : String) (st : EngineState) : EngineState × List String × Bool :=
  match splitCommand line with
  | (command, argText) =>
    if command = "BYE" then (st, [okLine "closing connection"], true)
    else if command = "RESET" ∨ command = "OPTION" then (st, [okLine ""], false)
    else if command = "GETINFO" then
      if jsToLower argText = "version" then
        (st, sendDataBufferLines (encodeAscii "2.5.17") ++ [okLine ""], false)
      else if jsToLower argText = "pid" then
        (st, sendDataBufferLines (encodeAscii "1") ++ [okLine ""], false)
      else (st, [errLine "Unknown GETINFO key"], false)
    else if command = "KEYSERVER" then
      if argText = "" then
        (st, [statusLine "KEYSERVER" (st.keyservers.headD ""), okLine ""], false)
      else
        ({ keyservers := ensureNonemptyKeyservers (keyserverTokens st argText) },
          [okLine ""], false)
    else if command = "KS_SEARCH" then
      if (parseDelimitedArgs argText).values = [] then
        (st, [errLine "KS_SEARCH requires a query"], false)
      else
        match fl (st.keyservers.headD "") "index"
            (joinSpace (parseDelimitedArgs argText).values) with
        | Except.error e => (st, [errLine e], false)
        | Except.ok body =>
          (st, statusLine "SOURCE" (st.keyservers.headD "") ::
            sendDataBufferLines body ++ [okLine ""], false)
    else if command = "KS_GET" then
      if (parseDelimitedArgs argText).values = [] then
        (st, [errLine "KS_GET requires at least one pattern"], false)
      else
        match ksGetFetchAll fl (st.keyservers.headD "")
            (parseDelimitedArgs argText).values with
        | Except.error e =>
          (st, [statusLine "SOURCE" (st.keyservers.headD ""), errLine e], false)
        | Except.ok out =>
          (st, statusLine "SOURCE" (st.keyservers.headD "") ::
            sendDataBufferLines out ++ [okLine ""], false)
    else if command = "KS_FETCH" then
      if (parseDelimitedArgs argText).values = [] then
        (st, [errLine "KS_FETCH requires a URL"], false)
      else
        match fd (joinSpace (parseDelimitedArgs argText).values) with
        | Except.error e => (st, [errLine e], false)
        | Except.ok r =>
          (st, statusLine "SOURCE" r.1 :: sendDataBufferLines r.2 ++ [okLine ""],
            false)
    else (st, [errLine ("Unsupported command: " ++ command)], false)

/-- The `runBridge` read loop from the source, over the byte sequence
the gpg→dirmngr channel delivers before it closes (the end of the list
models the `null` pop that breaks the loop).  `\r` (13) is skipped,
`\n` (10) terminates a line; an over-long line buffer keeps only its
last 4096 bytes; blank lines are skipped; each line goes through
`processCommand`, and a `resetSession` result re-sends the greeting.
Returns the written lines and the final state. -/
def runBridgeLoop (fl : FetchLookup) (fd : FetchDirect) :
    List Nat → List Nat → EngineState → List String × EngineState
  | [], _, st => ([], st)
  | b :: rest, lineBytes, st =>
    if b = 13 then runBridgeLoop fl fd rest lineBytes st
    else if ¬ b = 10 then
      let lb0 := lineBytes ++ [b]
      let lb := if 65536 < lb0.length then lb0.drop (lb0.length - 4096) else lb0
      runBridgeLoop fl fd rest lb st
    else
      let line := jsTrim (decodeAscii lineBytes)
      if line = "" then runBridgeLoop fl fd rest [] st
      else
        let r := processCommand fl fd line st
        let t := runBridgeLoop fl fd rest [] r.1
        (r.2.1 ++ (if r.2.2 then [greetingLine] else []) ++ t.1, t.2)

/-- C4 counterexample: the four inputs of the claim do not all
normalize to `https://keys.example.org`.  `hkp://keys.example.org`
maps to the plain-HTTP equivalent `http://keys.example.org`, and
`HKPS://keys.example.org` is returned unchanged: the scheme-detection
regex is case-insensitive, but the alias rewrites use case-sensitive
`startsWith`. -/
theorem C4_normalization_counterexample :
    normalizeKeyserver "hkp://keys.example.org" = "http://keys.example.org" ∧
    normalizeKeyserver "HKPS://keys.example.org" = "HKPS://keys.example.org" ∧
    ¬ (normalizeKeyserver "keys.example.org" = "https://keys.example.org" ∧
       normalizeKeyserver "hkp://keys.example.org" = "https://keys.example.org" ∧
       normalizeKeyserver "hkps://keys.example.org/" = "https://keys.example.org" ∧
       normalizeKeyserver "HKPS://keys.example.org" = "https://keys.example.org") := by
  refine ⟨by decide, by decide, ?_⟩
  intro h
  exact absurd h.2.1 (by decide)

/-- C4 (amended): `keys.example.org` and `hkps://keys.example.org/`
normalize to `https://keys.example.org`; `hkp://keys.example.org`
normalizes to `http://keys.example.org`; `HKPS://keys.example.org` is
returned unchanged. -/
theorem C4_endpoint_normalization :
    normalizeKeyserver "keys.example.org" = "https://keys.example.org" ∧
    normalizeKeyserver "hkps://keys.example.org/" = "https://keys.example.org" ∧
    normalizeKeyserver "hkp://keys.example.org" = "http://keys.example.org" ∧
    normalizeKeyserver "HKPS://keys.example.org" = "HKPS://keys.example.org" := by
  refine ⟨by decide, by decide, by decide, by decide⟩

/-- C8: the unsupported command line `FROB x` produces exactly the one
response line `ERR 1 Unsupported command: FROB`, no session reset, and
the engine state (in particular the keyserver list) is returned
unchanged, for every state and every fetch collaborator. -/
theorem C8_unsupported_command (fl : FetchLookup) (fd : FetchDirect)
    (st : EngineState) :
    processCommand fl fd "FROB x" st =
      (st, ["ERR 1 Unsupported command: FROB"], false) := rfl

/-- C5 counterexample: after `BYE` is answered, the command loop keeps
reading the same input channel — feeding `BYE\nFROB x\n` produces the
`BYE` response, a fresh greeting, and then the response to the later
`FROB x` command, instead of stopping after the `BYE` answer. -/
theorem C5_bye_counterexample :
    (runBridgeLoop (fun _ _ _ => Except.error "e") (fun _ => Except.error "e")
        (encodeAscii "BYE\nFROB x\n") [] initState).1 =
      ["OK closing connection", greetingLine,
        "ERR 1 Unsupported command: FROB"] ∧
    (runBridgeLoop (fun _ _ _ => Except.error "e") (fun _ => Except.error "e")
        (encodeAscii "BYE\nFROB x\n") [] initState).1 ≠
      ["OK closing connection", greetingLine] := by
  refine ⟨by decide, by decide⟩

/-- C5 (amended): `BYE` sends `OK closing connection` and signals a
session reset rather than termination: the loop re-sends the greeting
and then continues processing the remaining input bytes with the same
state; it stops only when the input channel is exhausted (closed and
drained). -/
theorem C5_bye_resets_session (fl : FetchLookup) (fd : FetchDirect)
    (rest : List Nat) (st : EngineState) :
    runBridgeLoop fl fd (encodeAscii "BYE\n" ++ rest) [] st =
      ("OK closing connection" :: greetingLine ::
          (runBridgeLoop fl fd rest [] st).1,
        (runBridgeLoop fl fd rest [] st).2) := rfl

/-- C10: the keyserver endpoint list is non-empty after
initialization, and processing any command line preserves
non-emptiness (the `KEYSERVER` handler re-inserts the built-in default
whenever clearing would leave the list empty), so `keyservers[0]` is
always defined when a handler reads it. -/
theorem C10_keyservers_nonempty :
    initState.keyservers ≠ [] ∧
    ∀ (fl : FetchLookup) (fd : FetchDirect) (line : String) (st : EngineState),
      st.keyservers ≠ [] → (processCommand fl fd line st).1.keyservers ≠ [] := by
  constructor
  · exact List.cons_ne_nil _ _
  · intro fl fd line st h
    unfold processCommand
    repeat' split
    all_goals first
      | exact h
      | exact ensureNonemptyKeyservers_ne_nil _

/-- Witness for C10: the invariant instantiated on a `KEYSERVER
--clear` line that empties the list, starting from the initial
state. -/
theorem C10_keyservers_nonempty_witness :
    initState.keyservers ≠ [] ∧
    (processCommand (fun _ _ _ => Except.error "e") (fun _ => Except.error "e")
        "KEYSERVER --clear" initState).1.keyservers ≠ [] :=
  ⟨C10_keyservers_nonempty.1,
    C10_keyservers_nonempty.2 (fun _ _ _ => Except.error "e")
      (fun _ => Except.error "e") "KEYSERVER --clear" initState
      (List.cons_ne_nil _ _)⟩

/- ### C6: KS_GET protocol round-trip -/

theorem stringAppend_data (a b : String) : (a ++ b).data = a.data ++ b.data := by
  cases a
  cases b
  rfl

theorem dLine_take2 (c : List Nat) :
    ("D " ++ assuanEscapeChunk c).data.take 2 = ['D', ' '] := by
  rw [stringAppend_data]
  rfl

theorem dLine_drop2 (c : List Nat) :
    ("D " ++ assuanEscapeChunk c).data.drop 2 = (assuanEscapeChunk c).data := by
  rw [stringAppend_data]
  rfl

theorem dLines_unescape (out : List Nat) (hb : ∀ b ∈ out, b < 256) :
    (((chunkBytes out).map (fun c => "D " ++ assuanEscapeChunk c)).map
        (fun l => unesc (l.data.drop 2))).flatten = out := by
  rw [List.map_map]
  have hcongr : (chunkBytes out).map
      ((fun l => unesc (l.data.drop 2)) ∘ (fun c => "D " ++ assuanEscapeChunk c)) =
      (chunkBytes out).map (fun c => c) := by
    apply List.map_congr_left
    intro c hc
    show unesc (("D " ++ assuanEscapeChunk c).data.drop 2) = c
    rw [dLine_drop2]
    exact percentUnescape_escape c (fun b hbc => hb b (chunkBytes_mem_sub out c hc b hbc))
  rw [hcongr, List.map_id']
  exact chunkBytes_flatten out

/-- C6 counterexample: the exact command line of the claim,
`KS_GET 0x1234ABCD`, contains no `--` option delimiter, so
`parseDelimitedArgs` yields no values and the handler answers
`ERR 1 KS_GET requires at least one pattern` — no `SOURCE`, `D `,
`END` or `OK` line is emitted, whatever 300-byte payload the fetch
collaborator would return. -/
theorem C6_ks_get_counterexample :
    (processCommand (fun _ _ _ => Except.ok (List.replicate 300 65))
        (fun _ => Except.error "e") "KS_GET 0x1234ABCD" initState).2.1 =
      ["ERR 1 KS_GET requires at least one pattern"] ∧
    ¬ "OK" ∈ (processCommand (fun _ _ _ => Except.ok (List.replicate 300 65))
        (fun _ => Except.error "e") "KS_GET 0x1234ABCD" initState).2.1 := by
  refine ⟨rfl, by decide⟩

/-- C6 (amended): for the delimited command line `KS_GET --
0x1234ABCD` (the form the protocol peer actually sends; without the
`--` delimiter the handler reports an error) and any 300-byte payload
from the fetch collaborator, the handler emits one `SOURCE` status
line, one or more `D `-prefixed lines, an `END` line and an `OK` line,
in that order; the unescaped and concatenated bytes of the `D ` lines
equal the payload with one newline byte appended when the payload does
not already end in `0x0a` (the handler newline-terminates each fetched
block before framing). -/
theorem C6_ks_get_round_trip (payload : List Nat) (st : EngineState)
    (fd : FetchDirect) (hlen : payload.length = 300)
    (hb : ∀ b ∈ payload, b < 256) :
    ∃ dlines : List String,
      processCommand (fun _ _ _ => Except.ok payload) fd
          "KS_GET -- 0x1234ABCD" st =
        (st, statusLine "SOURCE" (st.keyservers.headD "") ::
          ((dlines ++ ["END"]) ++ ["OK"]), false) ∧
      0 < dlines.length ∧
      (∀ l ∈ dlines, l.data.take 2 = ['D', ' ']) ∧
      (dlines.map (fun l => unesc (l.data.drop 2))).flatten =
        payload ++
          (if payload ≠ [] ∧ payload.getLast? ≠ some 10 then [10] else []) := by
  have hpc : processCommand (fun _ _ _ => Except.ok payload) fd
      "KS_GET -- 0x1234ABCD" st =
      (st, statusLine "SOURCE" (st.keyservers.headD "") ::
        sendDataBufferLines
          ((payload ++
            (if payload ≠ [] ∧ payload.getLast? ≠ some 10 then [10] else [])) ++ []) ++
        [okLine ""], false) := rfl
  have hout : (payload ++
      (if payload ≠ [] ∧ payload.getLast? ≠ some 10 then [10] else [])) ++ [] =
      payload ++
        (if payload ≠ [] ∧ payload.getLast? ≠ some 10 then [10] else []) :=
    List.append_nil _
  rw [hout] at hpc
  have hne : payload ++
      (if payload ≠ [] ∧ payload.getLast? ≠ some 10 then [10] else []) ≠ [] := by
    intro hnil
    have hl := congrArg List.length hnil
    rw [List.length_append, hlen] at hl
    simp at hl
  have hball : ∀ b ∈ payload ++
      (if payload ≠ [] ∧ payload.getLast? ≠ some 10 then [10] else []), b < 256 := by
    intro b hbm
    rcases List.mem_append.mp hbm with hbm | hbm
    · exact hb b hbm
    · split at hbm
      · rcases List.mem_singleton.mp hbm with rfl
        omega
      · exact absurd hbm (List.not_mem_nil b)
  refine ⟨(chunkBytes (payload ++
      (if payload ≠ [] ∧ payload.getLast? ≠ some 10 then [10] else []))).map
      (fun c => "D " ++ assuanEscapeChunk c), ?_, ?_, ?_, ?_⟩
  · exact hpc
  · rw [List.length_map]
    exact List.length_pos.mpr (chunkBytes_ne_nil _ hne)
  · intro l hl
    obtain ⟨c, _, rfl⟩ := List.mem_map.mp hl
    exact dLine_take2 c
  · exact dLines_unescape _ hball

/-- Witness for C6 (amended) at a 300-byte payload of `A` bytes. -/
theorem C6_ks_get_round_trip_witness :
    ∃ dlines : List String,
      processCommand (fun _ _ _ => Except.ok (List.replicate 300 65))
          (fun _ => Except.error "e") "KS_GET -- 0x1234ABCD" initState =
        (initState, statusLine "SOURCE" (initState.keyservers.headD "") ::
          ((dlines ++ ["END"]) ++ ["OK"]), false) ∧
      0 < dlines.length ∧
      (∀ l ∈ dlines, l.data.take 2 = ['D', ' ']) ∧
      (dlines.map (fun l => unesc (l.data.drop 2))).flatten =
        List.replicate 300 65 ++
          (if List.replicate 300 65 ≠ ([] : List Nat) ∧
              (List.replicate 300 65).getLast? ≠ some 10 then [10] else []) :=
  C6_ks_get_round_trip (List.replicate 300 65) initState
    (fun _ => Except.error "e") (by decide) (by decide)
